import Mathlib

/-!
Verification development for the ForgeX build-orchestration frontend and
Electron main process.  Definitions are shallow embeddings of the TypeScript
and JavaScript sources under `src/`; components that live only in the
backend (detector, registry, orchestrator) are modelled from the design
document and marked as such in their doc comments.
-/

namespace Forgex

/-! ## Shared data model (src/shared/types/build_types.ts) -/

/-- Embedding of the `LogEvent` type from `src/shared/types/build_types.ts`
(lines 85–90): build id, timestamp, level and message, all carried as
strings over the wire. -/
structure LogEvent where
  build_id : String
  timestamp : String
  level : String
  message : String
deriving DecidableEq, Repr

/-- The five values of the `status` field of `BuildStatus` in
`src/shared/types/build_types.ts` lines 76–83:
`'queued'|'running'|'success'|'failed'|'cancelled'`. -/
def buildStatusValues : List String :=
  ["queued", "running", "success", "failed", "cancelled"]

/-- The eight-state vocabulary asserted by the design document's state
machine (`queued → preparing → installing_deps → packaging →
post_processing → success | failed | cancelled`), stated here verbatim so
it can be compared with `buildStatusValues` taken from the source. -/
def specStatusValues : List String :=
  ["queued", "preparing", "installing_deps", "packaging", "post_processing",
   "success", "failed", "cancelled"]

/-- Terminal-state test used by the frontend: `BuildProgress.tsx` stops
polling exactly when `s.status === 'success' || s.status === 'failed' ||
s.status === 'cancelled'` (src/frontend/src/pages/BuildProgress.tsx:19). -/
def isTerminalStatus (s : String) : Bool :=
  s = "success" || s = "failed" || s = "cancelled"

/-- The fallback branch of `progressFromLogs` in
`src/frontend/src/pages/BuildProgress.tsx` (line 40): when no log phrase
matches, the progress is 10 when the observed status is `'running'`,
otherwise 5.  This is a status read that distinguishes the `'running'`
state. -/
def progressFallback (status : String) : Nat :=
  if status = "running" then 10 else 5

/-! ## The useBuild log list (src/frontend/src/hooks/useBuild.ts)

Both delivery paths of the hook update the `logs` state with
`setLogs(prev => [...prev.slice(-2000), data])` (lines 18 and 38).
`Array.prototype.slice(-2000)` keeps the last 2000 elements, so the update
appends the new record to a window of at most 2000 previous ones. -/

/-- JavaScript `arr.slice(-n)`: the suffix of the last `n` elements
(the whole list when it is shorter than `n`). -/
def sliceLast (n : Nat) (l : List α) : List α :=
  l.drop (l.length - n)

/-- One `setLogs` update of `useBuild` for an already-validated record:
`[...prev.slice(-2000), data]` (src/frontend/src/hooks/useBuild.ts:18,38). -/
def pushLog (prev : List LogEvent) (e : LogEvent) : List LogEvent :=
  sliceLast 2000 prev ++ [e]

/-- The `logs` list produced by the hook after receiving the well-formed
records `tr` in order, starting from the initial empty state. -/
def receiveAll (tr : List LogEvent) : List LogEvent :=
  tr.foldl pushLog []

/-! ## Raw message validation in useBuild (src/frontend/src/hooks/useBuild.ts)

Messages arrive either over the Electron bridge (`onLogs` callback, lines
15–21) or over a raw WebSocket (`ws.onmessage`, lines 33–41).  Both paths
accept a message only when it parsed to an object that has `timestamp`,
`level` and `message` keys; a `JSON.parse` failure is swallowed by the
surrounding `try { } catch {}`. -/

/-- A parsed JSON message as far as the hook's check inspects it: which of
the four `LogEvent` fields are present, each with its string value. -/
structure JMsg where
  build_id : Option String
  timestamp : Option String
  level : Option String
  message : Option String
deriving DecidableEq, Repr

/-- The guard `data && typeof data === 'object' && 'timestamp' in data &&
'level' in data && 'message' in data` of useBuild (lines 17 and 37). -/
def hasLogFields (m : JMsg) : Bool :=
  m.timestamp.isSome && m.level.isSome && m.message.isSome

/-- One `onmessage` / `onLogs` delivery: `none` stands for a payload whose
`JSON.parse` threw (dropped by the `catch {}`), `some m` for a parsed
object; `m` is appended through the sliding-window update only when the
three-field guard passes (src/frontend/src/hooks/useBuild.ts:16–21,34–41). -/
def onRawMessage (prev : List JMsg) (raw : Option JMsg) : List JMsg :=
  match raw with
  | none => prev
  | some m => if hasLogFields m then sliceLast 2000 prev ++ [m] else prev

/-- The hook's `logs` state after processing the raw message stream `raws`
from the initial empty state. -/
def processRawMessages (raws : List (Option JMsg)) : List JMsg :=
  raws.foldl onRawMessage []

/-! ## Build submission paths (src/unnamed/part_002 Home, part_001 Configure)

`Home.onStart` validates before calling `startBuild`; `Configure.handleStart`
builds the request and calls `startBuild` unconditionally. -/

/-- The fields of the submitted request that the validation claims are
about; the remaining fields of `BuildRequest` are irrelevant here. -/
structure ReqCore where
  project_path : String
  working_dir : String
  language : String
  start_command : String
deriving DecidableEq, Repr

/-- `Home.onStart` (src/unnamed/part_002 lines 72–135): returns the error
message set by its guards, or the request passed to `startBuild`.
JavaScript `!s` is true exactly for the empty string. -/
def homeOnStart (language startCommand projectPath workingDir : String)
    (uploading : Bool) : Except String ReqCore :=
  if language = "" || startCommand = "" then
    Except.error "Language and Start Command are required"
  else if projectPath = "" then
    Except.error "Please upload a project (or select a folder in the desktop app)"
  else if uploading then
    Except.error "Wait for upload to finish before starting the build"
  else
    Except.ok ⟨projectPath, workingDir, language, startCommand⟩

/-- `Configure.handleStart` (src/unnamed/part_001 lines 42–84): assembles
the request from its state and calls `startBuild(req)` with no validation
of any field. -/
def configureHandleStart (projectPath workingDir language startCommand : String) :
    ReqCore :=
  ⟨projectPath, workingDir, language, startCommand⟩

/-- Modelled from the spec: the backend `start(BuildRequest)` operation
(`backend/api/routes.py`, not under `src/`) "validates required fields
(non-empty start command, resolvable project path), creates a `queued`
BuildRecord".  The registry is the list of created records; on validation
failure it is returned unchanged and no record is created. -/
def startBackend (req : ReqCore) (registry : List (String × ReqCore)) :
    Except String String × List (String × ReqCore) :=
  if req.start_command = "" then
    (Except.error "start_command must not be empty", registry)
  else
    let bid := "build-" ++ toString registry.length
    (Except.ok bid, registry ++ [(bid, req)])

/-! ## Registry cancellation and completion

The backend cancel handler is reached from the frontend through
`cancelBuild` (src/frontend/src/utils/api.ts:12–16), a plain pass-through
of the build id.  The handler itself is not under `src/`. -/

/-- The fields of a build record the terminal-state claims are about. -/
structure BuildRec where
  build_id : String
  status : String
  error : Option String
deriving DecidableEq, Repr

/-- Modelled from the spec: `cancel(build_id)` "signals cancellation;
no-op if the build is already terminal" and "re-entering a terminal state
is a no-op (idempotent transition), not an error". -/
def applyCancel (r : BuildRec) : BuildRec :=
  if isTerminalStatus r.status then r else { r with status := "cancelled" }

/-- Modelled from the spec: delivery of a completion callback with outcome
`oc` (`success` or `failed`); re-entering a terminal state is a no-op. -/
def applyCompletion (oc : String) (err : Option String) (r : BuildRec) : BuildRec :=
  if isTerminalStatus r.status then r else { r with status := oc, error := err }

/-! ## State machine on the code's status vocabulary

The transition relation is modelled from the spec ("transitions are
strictly forward except for the three terminal states, reachable from any
non-terminal state"; "re-entering a terminal state is a no-op"), restated
over the five status values the code actually declares in
`src/shared/types/build_types.ts`. -/

/-- Position of a status in the code's forward order:
`queued` before `running` before the three terminal states. -/
def statusRank (s : String) : Nat :=
  if s = "queued" then 0 else if s = "running" then 1 else 2

/-- Modelled from the spec, over the code's status values: a build steps
from `queued` to `running`, from any non-terminal status to any terminal
one, and a terminal status only re-enters itself (idempotent no-op). -/
def statusStep (s t : String) : Bool :=
  if isTerminalStatus s then t = s
  else (s = "queued" && t = "running") || isTerminalStatus t

/-! ## Electron log bridge (src/unnamed/part_006, lines 93–129)

The main process keeps `wsRegistry = new Map()` keyed by
`` `${senderId}:${build_id}` `` mapping to the WebSocket forwarding that
build's logs to that renderer.  `forgex:logs` (subscribe) closes and
deletes any existing socket for the key, opens a new one and registers it
together with a `cleanup` closure capturing the key; `forgex:logs:unsubscribe`
closes and deletes one key, or every key of the sender when the build id is
`'__all__'`; the socket's `close`/`error` events run `cleanup`.  Sockets are
modelled by the numeric order of their creation. -/

/-- Character-list form of `String.startsWith`: does the second list begin
with the first? -/
def charsLead : List Char → List Char → Bool
  | [], _ => true
  | _ :: _, [] => false
  | a :: as, b :: bs => a == b && charsLead as bs

/-- `s.startsWith pfx`, computed structurally on the character data. -/
def strLead (pfx s : String) : Bool :=
  charsLead pfx.toList s.toList

/-- The registry key `` `${senderId}:${build_id}` ``
(src/unnamed/part_006:98,125). -/
def mkKey (senderId : Nat) (buildId : String) : String :=
  toString senderId ++ ":" ++ buildId

/-- `Map.prototype.get`: the value of the unique entry with this key. -/
def mapLookup (reg : List (String × Nat)) (k : String) : Option Nat :=
  (reg.find? (fun p => p.1 = k)).map Prod.snd

/-- `Map.prototype.delete`: removes the entry with this key. -/
def mapDelete (reg : List (String × Nat)) (k : String) : List (String × Nat) :=
  reg.filter (fun p => p.1 ≠ k)

/-- `Map.prototype.set`: replaces the value in place when the key exists,
appends a new entry otherwise. -/
def mapSet : List (String × Nat) → String → Nat → List (String × Nat)
  | [], k, v => [(k, v)]
  | p :: t, k, v => if p.1 = k then (k, v) :: t else p :: mapSet t k v

/-- State of the main process's log bridge: the `wsRegistry` map, the set
of sockets not yet closed, the registered `cleanup` closures (socket id
with its captured key), and the id the next `new WebSocket` receives. -/
structure BridgeState where
  reg : List (String × Nat)
  livesocks : List Nat
  handlers : List (Nat × String)
  nextId : Nat
deriving DecidableEq, Repr

/-- The bridge before any request: empty registry, no sockets. -/
def initBridge : BridgeState := ⟨[], [], [], 0⟩

/-- The `forgex:logs` handler (src/unnamed/part_006:97–116): close and
delete any existing socket for the key, then create, register and wire up
a fresh socket whose `cleanup` captures the key. -/
def doSubscribe (st : BridgeState) (senderId : Nat) (buildId : String) : BridgeState :=
  let key := mkKey senderId buildId
  let st1 :=
    match mapLookup st.reg key with
    | some w => { st with livesocks := st.livesocks.erase w, reg := mapDelete st.reg key }
    | none => st
  { st1 with
    reg := mapSet st1.reg key st1.nextId
    livesocks := st1.livesocks ++ [st1.nextId]
    handlers := st1.handlers ++ [(st1.nextId, key)]
    nextId := st1.nextId + 1 }

/-- The `forgex:logs:unsubscribe` handler for a single build id
(src/unnamed/part_006:126–128): close the socket under the key and delete
the entry; no-op when there is none. -/
def doUnsubscribe (st : BridgeState) (senderId : Nat) (buildId : String) : BridgeState :=
  let key := mkKey senderId buildId
  match mapLookup st.reg key with
  | some w => { st with livesocks := st.livesocks.erase w, reg := mapDelete st.reg key }
  | none => st

/-- The `'__all__'` branch of `forgex:logs:unsubscribe`
(src/unnamed/part_006:119–124): close and delete every entry whose key
starts with `` `${senderId}:` ``. -/
def doUnsubscribeAll (st : BridgeState) (senderId : Nat) : BridgeState :=
  let pfx := toString senderId ++ ":"
  { st with
    reg := st.reg.filter (fun p => !(strLead pfx p.1))
    livesocks := st.livesocks.filter
      (fun w => !(st.reg.any (fun p => strLead pfx p.1 && p.2 = w))) }

/-- A `close` or `error` event of socket `w` running its `cleanup` closure
(src/unnamed/part_006:108–115): close the socket and delete the captured
key from the registry. -/
def doCloseEvent (st : BridgeState) (w : Nat) : BridgeState :=
  match (st.handlers.find? (fun p => p.1 = w)).map Prod.snd with
  | some key => { st with livesocks := st.livesocks.erase w, reg := mapDelete st.reg key }
  | none => st

/-- The requests and events the bridge reacts to. -/
inductive BridgeOp where
  | sub (senderId : Nat) (buildId : String)
  | unsub (senderId : Nat) (buildId : String)
  | unsubAll (senderId : Nat)
  | closeEvt (w : Nat)
deriving DecidableEq, Repr

/-- Dispatch one request or event. -/
def applyBridgeOp (st : BridgeState) : BridgeOp → BridgeState
  | .sub sid bid => doSubscribe st sid bid
  | .unsub sid bid => doUnsubscribe st sid bid
  | .unsubAll sid => doUnsubscribeAll st sid
  | .closeEvt w => doCloseEvent st w

/-- The bridge state after a sequence of requests and events from startup. -/
def runBridge (ops : List BridgeOp) : BridgeState :=
  ops.foldl applyBridgeOp initBridge

/-- The well-formedness the bridge maintains: registry keys are pairwise
distinct (a `Map` holds one entry per key), every registered socket id and
every live socket id was already allocated, and no socket id is live
twice. -/
def bridgeInv (st : BridgeState) : Prop :=
  (st.reg.map Prod.fst).Nodup ∧
  (∀ p ∈ st.reg, p.2 < st.nextId) ∧
  (∀ w ∈ st.livesocks, w < st.nextId) ∧
  st.livesocks.Nodup

/-! ## Project Detector

Modelled from the spec: the Project Detector (`inspect(project_root) ->
DetectionResult`) lives in the backend, which is not under `src/`.  The
model follows section 4.1 of the design document: deterministic markers
weighted 0.7–0.9, per-file extension heuristics weighted 0.02–0.05 and
capped below any marker, scores summed and normalized, lexical tie-breaks,
entry-point candidates from conventional main filenames scored by filename
quality and directory depth, and a per-language command template.  A
project tree is the list of its files with their contents. -/

/-- One file of the staged project tree. -/
structure PFile where
  path : String
  contents : String
deriving DecidableEq, Repr

/-- Total order on files by path, then contents; the detector
canonicalizes the directory enumeration with it so that its result cannot
depend on filesystem enumeration order. -/
def fileLE (a b : PFile) : Prop :=
  a.path < b.path ∨ (a.path = b.path ∧ a.contents ≤ b.contents)

instance : DecidableRel fileLE := fun _ _ =>
  inferInstanceAs (Decidable (_ ∨ _))

instance : IsTotal PFile fileLE := by
  constructor
  intro a b
  rcases lt_trichotomy a.path b.path with h | h | h
  · exact Or.inl (Or.inl h)
  · rcases le_total a.contents b.contents with h2 | h2
    · exact Or.inl (Or.inr ⟨h, h2⟩)
    · exact Or.inr (Or.inr ⟨h.symm, h2⟩)
  · exact Or.inr (Or.inl h)

instance : IsTrans PFile fileLE := by
  constructor
  intro a b c hab hbc
  rcases hab with h1 | ⟨h1, h1c⟩
  · rcases hbc with h2 | ⟨h2, _⟩
    · exact Or.inl (h1.trans h2)
    · exact Or.inl (h2 ▸ h1)
  · rcases hbc with h2 | ⟨h2, h2c⟩
    · exact Or.inl (h1 ▸ h2)
    · exact Or.inr ⟨h1.trans h2, h1c.trans h2c⟩

instance : IsAntisymm PFile fileLE := by
  constructor
  intro a b hab hba
  rcases hab with h1 | ⟨h1, h1c⟩
  · rcases hba with h2 | ⟨h2, _⟩
    · exact absurd (h1.trans h2) (lt_irrefl _)
    · exact absurd h1 (h2 ▸ lt_irrefl _)
  · rcases hba with h2 | ⟨_, h2c⟩
    · exact absurd h2 (h1 ▸ lt_irrefl _)
    · cases a
      cases b
      simp only [PFile.mk.injEq]
      exact ⟨h1, le_antisymm h1c h2c⟩

/-- The canonical enumeration of a project tree: its files sorted by the
total order `fileLE`. -/
def canonTree (l : List PFile) : List PFile :=
  List.insertionSort fileLE l

/-- Deterministic markers: manifest/config file name, the language it
identifies, and its confidence weight (all within 0.7–0.9). -/
def markerTable : List (String × String × ℚ) :=
  [("requirements.txt", "python", 8/10),
   ("pyproject.toml", "python", 8/10),
   ("package.json", "node", 8/10)]

/-- Weak heuristics: file extension, language, small additive weight
(within 0.02–0.05 per matching file). -/
def extTable : List (String × String × ℚ) :=
  [(".py", "python", 3/100),
   (".js", "node", 3/100)]

/-- Cap on the total heuristic contribution per language, strictly below
the smallest marker weight so heuristics alone cannot outrank a marker. -/
def heuristicCap : ℚ := 1/2

/-- The supported language identifiers, in lexical order (the final
tie-break of the detector). -/
def languageIds : List String := ["node", "python"]

/-- Marker contribution for a language: each marker whose file is present
in the tree adds its weight. -/
def markerScore (fs : List PFile) (lang : String) : ℚ :=
  (markerTable.map (fun m =>
    if m.2.1 = lang ∧ fs.any (fun f => f.path = m.1) then m.2.2 else 0)).sum

/-- Character-list form of `String.endsWith`: does the second list end
with the first? -/
def charsEnd (suffix l : List Char) : Bool :=
  suffix == l.drop (l.length - suffix.length)

/-- `s.endsWith suffix`, computed structurally on the character data. -/
def strEnd (suffix s : String) : Bool :=
  charsEnd suffix.toList s.toList

/-- Uncapped heuristic contribution: every file whose name ends in a
matching extension adds the extension's weight. -/
def heurRaw (fs : List PFile) (lang : String) : ℚ :=
  (fs.map (fun f =>
    (extTable.map (fun e =>
      if e.2.1 = lang ∧ strEnd e.1 f.path then e.2.2 else 0)).sum)).sum

/-- Capped heuristic contribution for a language. -/
def heurScore (fs : List PFile) (lang : String) : ℚ :=
  min (heurRaw fs lang) heuristicCap

/-- Summed raw score of one language: markers plus capped heuristics. -/
def rawScore (fs : List PFile) (lang : String) : ℚ :=
  markerScore fs lang + heurScore fs lang

/-- Total raw score over all supported languages. -/
def totalScore (fs : List PFile) : ℚ :=
  (languageIds.map (rawScore fs)).sum

/-- Normalized score: the language's share of the total, zero when nothing
matched at all. -/
def normScore (fs : List PFile) (lang : String) : ℚ :=
  if totalScore fs = 0 then 0 else rawScore fs lang / totalScore fs

/-- The winning language: highest raw score, ties broken by
marker-over-heuristic precedence, then by lexical order of the language id
(the fold visits `languageIds` in lexical order and replaces the current
best only on strict improvement); empty when all scores are zero. -/
def bestLanguage (fs : List PFile) : String :=
  languageIds.foldl (fun best l =>
    if best = "" then (if 0 < rawScore fs l then l else best)
    else if rawScore fs best < rawScore fs l then l
    else if rawScore fs l = rawScore fs best ∧ 0 < markerScore fs l ∧
        markerScore fs best = 0 then l
    else best) ""

/-- Conventional "main" filenames per language with their filename-quality
score. -/
def mainTable : List (String × String × ℚ) :=
  [("main.py", "python", 1),
   ("app.py", "python", 9/10),
   ("run.py", "python", 8/10),
   ("server.py", "python", 7/10),
   ("index.js", "node", 1),
   ("server.js", "node", 9/10)]

/-- Directory depth of a path: the number of separators in it. -/
def pathDepth (p : String) : Nat :=
  (p.toList.filter (fun c => c = '/')).length

/-- Splits a character list at every `'/'`. -/
def splitSlash : List Char → List (List Char)
  | [] => [[]]
  | c :: cs =>
    let r := splitSlash cs
    if c = '/' then [] :: r
    else
      match r with
      | [] => [[c]]
      | h :: t => (c :: h) :: t

/-- Final path component. -/
def baseName (p : String) : String :=
  String.mk ((splitSlash p.toList).getLastD [])

/-- Entry-point candidate score of one file for the given language:
filename quality minus a shallowness penalty per directory level; `none`
when the filename is not a conventional main. -/
def entryScore (lang : String) (f : PFile) : Option (String × ℚ) :=
  match mainTable.find? (fun m => m.1 = baseName f.path && m.2.1 = lang) with
  | some m => some (f.path, m.2.2 - (pathDepth f.path : ℚ) / 100)
  | none => none

/-- All entry-point candidates of the tree for the given language, in
canonical tree order. -/
def entryCandidates (lang : String) (fs : List PFile) : List (String × ℚ) :=
  fs.filterMap (entryScore lang)

/-- The top-scoring candidate; ties keep the earliest, which in canonical
order is the lexically smallest path. -/
def pickBestEntry (cs : List (String × ℚ)) : Option (String × ℚ) :=
  cs.foldl (fun best c =>
    match best with
    | none => some c
    | some b => if b.2 < c.2 then some c else some b) none

/-- Per-language start-command template applied to the chosen entry
point. -/
def commandTemplate (lang : String) (entry : String) : String :=
  if lang = "python" then "python " ++ entry
  else if lang = "node" then "node " ++ entry
  else ""

/-- The detector's result: normalized per-language scores, the winning
language with its confidence, the ranked entry-point candidates, and the
suggested start command. -/
structure DetectionResult where
  scores : List (String × ℚ)
  language : String
  confidence : ℚ
  entry_points : List (String × ℚ)
  suggested_command : String
deriving DecidableEq, Repr

/-- The detector on an already-canonical file enumeration. -/
def inspectSorted (fs : List PFile) : DetectionResult :=
  let lang := bestLanguage fs
  let eps := entryCandidates lang fs
  { scores := languageIds.map (fun l => (l, normScore fs l))
    language := lang
    confidence := normScore fs lang
    entry_points := eps
    suggested_command :=
      match pickBestEntry eps with
      | some e => commandTemplate lang e.1
      | none => "" }

/-- Modelled from the spec: `inspect(project_root) -> DetectionResult`,
a pure function of the project tree's contents.  The enumeration is
canonicalized first, so the result is independent of the order the
filesystem happened to list the files in. -/
def inspect (l : List PFile) : DetectionResult :=
  inspectSorted (canonTree l)

/-! ## Orchestrator cancellation path

Modelled from the spec: the Orchestrator and Subprocess Supervisor are
backend components not under `src/`.  Section 5 of the design document:
"the Supervisor guarantees the underlying process group is terminated
before the build record transitions to `cancelled`, and Workspace cleanup
runs afterward unconditionally." -/

/-- The spec's build phases (design document section 4.5). -/
inductive Phase where
  | queued
  | preparing
  | installing_deps
  | packaging
  | post_processing
  | success
  | failed
  | cancelled
deriving DecidableEq, Repr

/-- The three terminal phases. -/
def isTerminalPhase : Phase → Bool
  | .success => true
  | .failed => true
  | .cancelled => true
  | _ => false

/-- Momentary state of one build as the orchestrator drives it: recorded
phase, whether the supervised process group is still alive, whether the
workspace directory still exists, and the published artifact list. -/
structure OrchState where
  phase : Phase
  procGroupAlive : Bool
  workspacePresent : Bool
  artifacts : List String
deriving DecidableEq, Repr

/-- Modelled from the spec: the successive states a cancellation request
drives the build through — terminate the process group, then record
`cancelled` discarding artifacts, then clean the workspace; a build
already terminal is left untouched (idempotent no-op). -/
def cancelSnapshots (st : OrchState) : List OrchState :=
  if isTerminalPhase st.phase then [st]
  else
    let st1 := { st with procGroupAlive := false }
    let st2 := { st1 with phase := .cancelled, artifacts := [] }
    let st3 := { st2 with workspacePresent := false }
    [st, st1, st2, st3]

/-- The state the cancellation path ends in. -/
def cancelResult (st : OrchState) : OrchState :=
  (cancelSnapshots st).getLastD st

/-! ## Concrete inputs used by the theorems below -/

/-- A transcript of 2002 distinct records, longer than the hook's
sliding window. -/
def bigTranscript : List LogEvent :=
  (List.range 2002).map (fun i => ⟨"b1", toString i, "info", "line " ++ toString i⟩)

/-- A well-formed parsed log message. -/
def goodMsg : JMsg :=
  ⟨Option.some "b1", Option.some "t0", Option.some "info", Option.some "hello"⟩

/-- A bridge state with two renderers subscribed to one build each. -/
def demoBridge : BridgeState :=
  ⟨[("1:a", 0), ("2:b", 1)], [0, 1], [(0, "1:a"), (1, "2:b")], 2⟩

/-- Scenario A project tree: only `app.py` and a dependency manifest
naming flask. -/
def flaskTree : List PFile :=
  [⟨"app.py", "import flask"⟩, ⟨"requirements.txt", "flask"⟩]

/-! ## Supporting lemmas -/

theorem sliceLast_length (n : Nat) (l : List α) :
    (sliceLast n l).length = min n l.length := by
  simp only [sliceLast, List.length_drop]
  omega

theorem sliceLast_of_le {n : Nat} {l : List α} (h : l.length ≤ n) :
    sliceLast n l = l := by
  simp only [sliceLast]
  have : l.length - n = 0 := by omega
  simp [this]

theorem sliceLast_sliceLast {m n : Nat} (h : m ≤ n) (l : List α) :
    sliceLast m (sliceLast n l) = sliceLast m l := by
  simp only [sliceLast, List.drop_drop, List.length_drop]
  congr 1
  omega

theorem sliceLast_append_singleton (n : Nat) (l : List α) (a : α) :
    sliceLast n l ++ [a] = sliceLast (n + 1) (l ++ [a]) := by
  simp only [sliceLast, List.length_append, List.length_singleton]
  rw [List.drop_append_of_le_length (by omega)]
  congr 2
  omega

/-- Closed form of the hook's log state: the list always equals the suffix
of the most recent 2001 received records. -/
theorem receiveAll_eq_sliceLast (tr : List LogEvent) :
    receiveAll tr = sliceLast 2001 tr := by
  induction tr using List.reverseRecOn with
  | nil => rfl
  | append_singleton l a ih =>
    have hfold : receiveAll (l ++ [a]) = pushLog (receiveAll l) a := by
      simp [receiveAll, List.foldl_append]
    rw [hfold, pushLog, ih, sliceLast_sliceLast (by omega),
      sliceLast_append_singleton]


/-! ## Claim C1: build status vocabulary and transitions -/

/-- Claim C1, counterexample: the code's status vocabulary includes
`'running'`, which is not one of the eight states the claim lists; the
frontend progress fallback is a status read that observes and handles
exactly this state.  So a recorded state can lie outside the claimed
set. -/
theorem claim_c1_counterexample :
    "running" ∈ buildStatusValues ∧ "running" ∉ specStatusValues ∧
    progressFallback "running" = 10 := by decide

/-- Claim C1, amended: over the five status values the code actually
declares, every transition of the (spec-modelled) step relation stays
inside the declared vocabulary and is strictly forward, except that a
terminal status only re-enters itself. -/
theorem claim_c1_theorem (s t : String) (hs : s ∈ buildStatusValues)
    (hstep : statusStep s t = true) :
    t ∈ buildStatusValues ∧
    (statusRank s < statusRank t ∨ (isTerminalStatus s = true ∧ t = s)) := by
  simp only [buildStatusValues, List.mem_cons, List.not_mem_nil, or_false] at hs
  rcases hs with rfl | rfl | rfl | rfl | rfl <;>
    simp only [statusStep, isTerminalStatus] at hstep <;>
    simp +decide at hstep <;>
    first
    | (rcases hstep with rfl | (rfl | rfl) | rfl <;> decide)
    | (rcases hstep with (rfl | rfl) | rfl <;> decide)

/-- Claim C1, witness: the `queued` to `running` transition instantiates
the amended theorem. -/
theorem claim_c1_witness :
    ("queued" ∈ buildStatusValues ∧ statusStep "queued" "running" = true) ∧
    ("running" ∈ buildStatusValues ∧
      (statusRank "queued" < statusRank "running" ∨
        (isTerminalStatus "queued" = true ∧ "running" = "queued"))) :=
  ⟨⟨by decide, by decide⟩, claim_c1_theorem "queued" "running" (by decide) (by decide)⟩

/-! ## Claim C2: the useBuild log list versus the full transcript -/

/-- Claim C2, counterexample: after receiving a transcript of 2002
records, the hook's `logs` list is not the full transcript — the
`prev.slice(-2000)` update has dropped its oldest record. -/
theorem claim_c2_counterexample : receiveAll bigTranscript ≠ bigTranscript := by
  intro h
  have hl := congrArg List.length h
  rw [receiveAll_eq_sliceLast, sliceLast_length] at hl
  simp [bigTranscript] at hl

/-- Claim C2, amended: the hook's `logs` list is the suffix of the most
recent 2001 received records — received records appear in emission order
with no duplicates, and the list equals the whole transcript exactly when
the transcript has at most 2001 records. -/
theorem claim_c2_theorem (tr : List LogEvent) :
    receiveAll tr = sliceLast 2001 tr ∧
    receiveAll tr <:+ tr ∧
    (receiveAll tr).length = min 2001 tr.length := by
  refine ⟨receiveAll_eq_sliceLast tr, ?_, ?_⟩
  · rw [receiveAll_eq_sliceLast]
    exact List.drop_suffix _ _
  · rw [receiveAll_eq_sliceLast, sliceLast_length]

/-! ## Claim C3: validation of the start command -/

/-- Claim C3, counterexample: the Configure page's `handleStart` submits a
build request with an empty start command — it calls `startBuild`
without any validation, so not every submitting code path rejects the
empty command. -/
theorem claim_c3_counterexample :
    configureHandleStart "/proj" "." "python" "" = ⟨"/proj", ".", "python", ""⟩ ∧
    (configureHandleStart "/proj" "." "python" "").start_command = "" := by decide

/-- Claim C3, amended: the Home page's `onStart` rejects an empty start
command before calling `startBuild`, and the backend `start` operation
(modelled from the spec) fails validation on an empty start command and
creates no BuildRecord; the Configure page performs no such check. -/
theorem claim_c3_theorem (language projectPath workingDir : String) (uploading : Bool)
    (req : ReqCore) (reg : List (String × ReqCore)) (hreq : req.start_command = "") :
    homeOnStart language "" projectPath workingDir uploading =
      Except.error "Language and Start Command are required" ∧
    (startBackend req reg).1 = Except.error "start_command must not be empty" ∧
    (startBackend req reg).2 = reg := by
  refine ⟨?_, ?_, ?_⟩ <;> simp [homeOnStart, startBackend, hreq]

/-- Claim C3, witness: a concrete empty-command request is rejected and
the registry is unchanged. -/
theorem claim_c3_witness :
    (⟨"/p", ".", "python", ""⟩ : ReqCore).start_command = "" ∧
    (homeOnStart "python" "" "/p" "." false =
      Except.error "Language and Start Command are required" ∧
    (startBackend ⟨"/p", ".", "python", ""⟩ []).1 =
      Except.error "start_command must not be empty" ∧
    (startBackend ⟨"/p", ".", "python", ""⟩ []).2 = []) :=
  ⟨by decide, claim_c3_theorem "python" "/p" "." false ⟨"/p", ".", "python", ""⟩ [] (by decide)⟩

/-! ## Claim C4: idempotence of cancellation and completion on terminal records -/

/-- Claim C4, confirmed (registry operations modelled from the spec): on a
terminal record, `cancel` is the identity; cancelling twice equals
cancelling once; delivering a completion signal to a terminal record is
also the identity. -/
theorem claim_c4_theorem (r : BuildRec) (oc : String) (err : Option String) :
    (isTerminalStatus r.status = true → applyCancel r = r) ∧
    applyCancel (applyCancel r) = applyCancel r ∧
    (isTerminalStatus r.status = true → applyCompletion oc err r = r) := by
  refine ⟨fun h => by simp [applyCancel, h], ?_, fun h => by simp [applyCompletion, h]⟩
  by_cases h : isTerminalStatus r.status = true
  · simp [applyCancel, h]
  · simp only [applyCancel, h, if_neg, Bool.not_eq_true] at *
    simp [h]

/-- Claim C4, witness: a successful build is left unchanged by `cancel`
and by a late completion callback. -/
theorem claim_c4_witness :
    applyCancel ⟨"b1", "success", Option.none⟩ = ⟨"b1", "success", Option.none⟩ ∧
    applyCancel (applyCancel ⟨"b1", "success", Option.none⟩) =
      applyCancel ⟨"b1", "success", Option.none⟩ ∧
    applyCompletion "failed" (Option.some "boom") ⟨"b1", "success", Option.none⟩ =
      ⟨"b1", "success", Option.none⟩ :=
  have h := claim_c4_theorem ⟨"b1", "success", Option.none⟩ "failed" (Option.some "boom")
  ⟨h.1 (by decide), h.2.1, h.2.2 (by decide)⟩


/-! ## Claim C5: unsubscribing leaves other subscriptions untouched -/

/-- Association-list lookup of a cons cell. -/
theorem mapLookup_cons (a : String) (b : Nat) (t : List (String × Nat)) (k : String) :
    mapLookup ((a, b) :: t) k = if a = k then Option.some b else mapLookup t k := by
  by_cases h : a = k <;> simp [mapLookup, List.find?_cons, h]

/-- Deleting from a cons cell. -/
theorem mapDelete_cons (a : String) (b : Nat) (t : List (String × Nat)) (key : String) :
    mapDelete ((a, b) :: t) key =
      if a = key then mapDelete t key else (a, b) :: mapDelete t key := by
  by_cases h : a = key <;> simp [mapDelete, List.filter_cons, h]

/-- Deleting one key leaves every other key's binding unchanged. -/
theorem mapLookup_mapDelete_ne (reg : List (String × Nat)) (k key : String)
    (h : k ≠ key) : mapLookup (mapDelete reg key) k = mapLookup reg k := by
  induction reg with
  | nil => rfl
  | cons p t ih =>
    obtain ⟨a, b⟩ := p
    rw [mapDelete_cons]
    by_cases ha : a = key
    · rw [if_pos ha, ih, mapLookup_cons, if_neg (fun hk => h ((hk.symm).trans ha))]
    · rw [if_neg ha, mapLookup_cons, mapLookup_cons, ih]

/-- Filtering entries out leaves the binding of any surviving key
unchanged. -/
theorem mapLookup_filter_out (reg : List (String × Nat)) (q : String → Bool)
    (k : String) (hk : q k = false) :
    mapLookup (reg.filter (fun p => !(q p.1))) k = mapLookup reg k := by
  induction reg with
  | nil => rfl
  | cons p t ih =>
    obtain ⟨a, b⟩ := p
    by_cases hq : q a = true
    · have ha : a ≠ k := fun hak => by rw [hak, hk] at hq; cases hq
      rw [List.filter_cons]
      simp only [hq, Bool.not_true]
      rw [if_neg (by decide), ih, mapLookup_cons, if_neg ha]
    · rw [List.filter_cons]
      simp only [Bool.not_eq_true] at hq
      simp only [hq, Bool.not_false]
      rw [if_pos (by decide), mapLookup_cons, mapLookup_cons, ih]

/-- Claim C5, confirmed: unsubscribing one (renderer, build) key leaves
every other key's registration unchanged; the `'__all__'` form leaves
every key of other renderers unchanged; and removing one subscription
closes no other live socket. -/
theorem claim_c5_theorem (st : BridgeState) (senderId : Nat) (buildId : String)
    (k : String) (w w' : Nat) :
    (k ≠ mkKey senderId buildId →
      mapLookup (doUnsubscribe st senderId buildId).reg k = mapLookup st.reg k) ∧
    (strLead (toString senderId ++ ":") k = false →
      mapLookup (doUnsubscribeAll st senderId).reg k = mapLookup st.reg k) ∧
    (mapLookup st.reg (mkKey senderId buildId) = Option.some w →
      w' ∈ st.livesocks → w' ≠ w →
      w' ∈ (doUnsubscribe st senderId buildId).livesocks) := by
  refine ⟨fun hk => ?_, fun hk => ?_, fun hw hmem hne => ?_⟩
  · simp only [doUnsubscribe]
    cases hl : mapLookup st.reg (mkKey senderId buildId) with
    | none => simp
    | some w0 => exact mapLookup_mapDelete_ne st.reg k (mkKey senderId buildId) hk
  · simp only [doUnsubscribeAll]
    exact mapLookup_filter_out st.reg _ k hk
  · simp only [doUnsubscribe, hw]
    exact (List.mem_erase_of_ne hne).mpr hmem

/-- Claim C5, witness: renderer 1 unsubscribing from build `a` does not
touch renderer 2's subscription to build `b`, and leaves renderer 2's
socket live. -/
theorem claim_c5_witness :
    ("2:b" ≠ mkKey 1 "a" ∧
      mapLookup (doUnsubscribe demoBridge 1 "a").reg "2:b" = mapLookup demoBridge.reg "2:b") ∧
    (strLead (toString 1 ++ ":") "2:b" = false ∧
      mapLookup (doUnsubscribeAll demoBridge 1).reg "2:b" = mapLookup demoBridge.reg "2:b") ∧
    1 ∈ (doUnsubscribe demoBridge 1 "a").livesocks :=
  ⟨⟨by decide, (claim_c5_theorem demoBridge 1 "a" "2:b" 0 1).1 (by decide)⟩,
   ⟨by decide, (claim_c5_theorem demoBridge 1 "a" "2:b" 0 1).2.1 (by decide)⟩,
   (claim_c5_theorem demoBridge 1 "a" "2:b" 0 1).2.2 (by decide) (by decide) (by decide)⟩


/-! ## Claim C6: Scenario A detection -/

/-- Full evaluation of the detector on the Scenario A tree. -/
theorem inspect_flaskTree :
    inspect flaskTree =
      ⟨[("node", 0), ("python", 1)], "python", 1, [("app.py", 9/10)], "python app.py"⟩ := by
  norm_num +decide [inspect, inspectSorted, canonTree, List.insertionSort, List.orderedInsert,
    fileLE, markerScore, heurRaw, heurScore, rawScore, totalScore, normScore,
    bestLanguage, entryCandidates, entryScore, pickBestEntry, commandTemplate,
    mainTable, markerTable, extTable, heuristicCap, languageIds, baseName, pathDepth,
    strEnd, charsEnd, splitSlash, min_def, List.filterMap_cons, List.filterMap_nil,
    List.find?]

/-- Claim C6, confirmed (detector modelled from the spec): on a tree with
only `app.py` and a flask-naming manifest, the detector reports python
with confidence at least 0.7 and suggests exactly `python app.py`; all
marker weights lie in 0.7–0.9, all extension weights in 0.02–0.05, and
the heuristic cap is below every marker weight. -/
theorem claim_c6_theorem :
    (inspect flaskTree).language = "python" ∧
    (7 : ℚ)/10 ≤ (inspect flaskTree).confidence ∧
    (inspect flaskTree).suggested_command = "python app.py" ∧
    (∀ m ∈ markerTable, (7 : ℚ)/10 ≤ m.2.2 ∧ m.2.2 ≤ 9/10) ∧
    (∀ e ∈ extTable, (2 : ℚ)/100 ≤ e.2.2 ∧ e.2.2 ≤ 5/100) ∧
    heuristicCap < (7 : ℚ)/10 := by
  rw [inspect_flaskTree]
  refine ⟨rfl, by norm_num, rfl, ?_, ?_, by norm_num [heuristicCap]⟩
  · intro m hm
    simp only [markerTable, List.mem_cons, List.not_mem_nil, or_false] at hm
    rcases hm with rfl | rfl | rfl <;> norm_num
  · intro e he
    simp only [extTable, List.mem_cons, List.not_mem_nil, or_false] at he
    rcases he with rfl | rfl <;> norm_num

/-! ## Claim C7: determinism of detection -/

/-- Two enumerations of the same tree canonicalize identically. -/
theorem canonTree_eq_of_perm {l₁ l₂ : List PFile} (h : l₁.Perm l₂) :
    canonTree l₁ = canonTree l₂ :=
  List.eq_of_perm_of_sorted
    (((List.perm_insertionSort fileLE l₁).trans h).trans
      (List.perm_insertionSort fileLE l₂).symm)
    (List.sorted_insertionSort fileLE l₁)
    (List.sorted_insertionSort fileLE l₂)

/-- Claim C7, confirmed (detector modelled from the spec): `inspect` is a
pure function of the tree's contents — any two enumerations of the same
files, in whatever order the filesystem lists them, produce byte-identical
scores, entry points and suggestion. -/
theorem claim_c7_theorem (l₁ l₂ : List PFile) (h : l₁.Perm l₂) :
    inspect l₁ = inspect l₂ := by
  unfold inspect
  rw [canonTree_eq_of_perm h]

/-- Claim C7, witness: the Scenario A tree listed in either order yields
the same result. -/
theorem claim_c7_witness :
    inspect [(⟨"requirements.txt", "flask"⟩ : PFile), ⟨"app.py", "import flask"⟩] =
      inspect [(⟨"app.py", "import flask"⟩ : PFile), ⟨"requirements.txt", "flask"⟩] :=
  claim_c7_theorem _ _ (List.Perm.swap _ _ _)

/-! ## Claim C8: process-group termination before the cancelled state -/

/-- Claim C8, confirmed (orchestrator cancellation modelled from the
spec): along the cancellation path of a non-terminal build, no observable
state has the record cancelled while the process group is alive; the
workspace is only gone once the record is cancelled; and the final state
is cancelled with the process dead, the workspace removed and no
artifacts listed. -/
theorem claim_c8_theorem (st : OrchState) (h : isTerminalPhase st.phase = false)
    (hw : st.workspacePresent = true) :
    (∀ s ∈ cancelSnapshots st, s.phase = Phase.cancelled → s.procGroupAlive = false) ∧
    (∀ s ∈ cancelSnapshots st, s.workspacePresent = false → s.phase = Phase.cancelled) ∧
    (cancelResult st).phase = Phase.cancelled ∧
    (cancelResult st).procGroupAlive = false ∧
    (cancelResult st).workspacePresent = false ∧
    (cancelResult st).artifacts = [] := by
  have hc : st.phase ≠ Phase.cancelled := by
    intro hp
    rw [hp] at h
    exact absurd h (by decide)
  simp only [cancelSnapshots, cancelResult, h, Bool.false_eq_true, if_false,
    List.mem_cons, List.not_mem_nil, or_false, List.getLastD_cons]
  refine ⟨?_, ?_, by simp, by simp, by simp, by simp⟩
  · rintro s (rfl | rfl | rfl | rfl) hphase <;> simp_all
  · rintro s (rfl | rfl | rfl | rfl) hws <;> simp_all

/-- Claim C8, witness: Scenario B — a build cancelled during
`installing_deps` ends cancelled, with the process group terminated, the
workspace removed and no artifacts. -/
theorem claim_c8_witness :
    isTerminalPhase Phase.installing_deps = false ∧
    (cancelResult ⟨Phase.installing_deps, true, true, []⟩).phase = Phase.cancelled ∧
    (cancelResult ⟨Phase.installing_deps, true, true, []⟩).procGroupAlive = false ∧
    (cancelResult ⟨Phase.installing_deps, true, true, []⟩).workspacePresent = false ∧
    (cancelResult ⟨Phase.installing_deps, true, true, []⟩).artifacts = [] :=
  ⟨by decide, (claim_c8_theorem ⟨Phase.installing_deps, true, true, []⟩ (by decide) (by decide)).2.2⟩

/-! ## Claim C9: only well-formed log events reach the logs list -/

/-- Any element of an updated logs list was already present or passed the
three-field guard. -/
theorem mem_onRawMessage {prev : List JMsg} {raw : Option JMsg} {m : JMsg}
    (hm : m ∈ onRawMessage prev raw) : m ∈ prev ∨ hasLogFields m = true := by
  cases raw with
  | none => exact Or.inl hm
  | some x =>
    by_cases hx : hasLogFields x = true
    · simp only [onRawMessage, hx, if_true, sliceLast, List.mem_append,
        List.mem_singleton] at hm
      rcases hm with hm | rfl
      · exact Or.inl (List.mem_of_mem_drop hm)
      · exact Or.inr hx
    · simp only [onRawMessage, hx, if_false] at hm
      exact Or.inl hm

/-- The guard invariant survives any sequence of deliveries. -/
theorem foldl_onRawMessage_fields (raws : List (Option JMsg)) (acc : List JMsg)
    (hacc : ∀ m ∈ acc, hasLogFields m = true) :
    ∀ m ∈ raws.foldl onRawMessage acc, hasLogFields m = true := by
  induction raws generalizing acc with
  | nil => exact hacc
  | cons r t ih =>
    intro m hm
    refine ih _ (fun x hx => ?_) m hm
    rcases mem_onRawMessage hx with h | h
    · exact hacc x h
    · exact h

/-- Claim C9, confirmed: every element of the hook's logs list, after any
stream of raw deliveries (including unparsable ones), carries timestamp,
level and message fields — malformed messages never appear. -/
theorem claim_c9_theorem (raws : List (Option JMsg)) (m : JMsg)
    (hm : m ∈ processRawMessages raws) : hasLogFields m = true :=
  foldl_onRawMessage_fields raws [] (by simp) m hm

/-- Claim C9, witness: a well-formed message delivered alongside an
unparsable one ends up in the list and carries all three fields. -/
theorem claim_c9_witness :
    goodMsg ∈ processRawMessages [Option.some goodMsg, Option.none] ∧
    hasLogFields goodMsg = true :=
  ⟨by decide, claim_c9_theorem [Option.some goodMsg, Option.none] goodMsg (by decide)⟩


/-! ## Claim C10: one live socket per registry key -/

/-- Unfolding `mapSet` on a cons cell. -/
theorem mapSet_cons (a : String) (b : Nat) (t : List (String × Nat)) (k : String)
    (v : Nat) :
    mapSet ((a, b) :: t) k v =
      if a = k then (k, v) :: t else (a, b) :: mapSet t k v := rfl

/-- Keys after a `set` are the old keys plus possibly the new one. -/
theorem mem_keys_mapSet (reg : List (String × Nat)) (k : String) (v : Nat) (x : String) :
    x ∈ (mapSet reg k v).map Prod.fst ↔ x ∈ reg.map Prod.fst ∨ x = k := by
  induction reg with
  | nil => simp [mapSet]
  | cons p t ih =>
    obtain ⟨a, b⟩ := p
    rw [mapSet_cons]
    by_cases ha : a = k
    · rw [if_pos ha]
      subst ha
      simp only [List.map_cons, List.mem_cons]
      tauto
    · rw [if_neg ha]
      simp only [List.map_cons, List.mem_cons, ih]
      tauto

/-- `set` keeps the keys pairwise distinct. -/
theorem nodup_keys_mapSet {reg : List (String × Nat)} (k : String) (v : Nat)
    (h : (reg.map Prod.fst).Nodup) : ((mapSet reg k v).map Prod.fst).Nodup := by
  induction reg with
  | nil => simp [mapSet]
  | cons p t ih =>
    obtain ⟨a, b⟩ := p
    simp only [List.map_cons, List.nodup_cons] at h
    rw [mapSet_cons]
    by_cases ha : a = k
    · rw [if_pos ha]
      subst ha
      simpa using h
    · rw [if_neg ha]
      simp only [List.map_cons, List.nodup_cons]
      refine ⟨fun hmem => ?_, ih h.2⟩
      rcases (mem_keys_mapSet t k v a).mp hmem with hm | hm
      · exact h.1 hm
      · exact ha hm

/-- Every entry after a `set` is the new binding or an old entry. -/
theorem mem_mapSet_vals {reg : List (String × Nat)} {k : String} {v : Nat} {q : String × Nat}
    (h : q ∈ mapSet reg k v) : q = (k, v) ∨ q ∈ reg := by
  induction reg with
  | nil => simpa [mapSet] using h
  | cons p t ih =>
    obtain ⟨a, b⟩ := p
    rw [mapSet_cons] at h
    by_cases ha : a = k
    · rw [if_pos ha] at h
      subst ha
      simp only [List.mem_cons] at h
      tauto
    · rw [if_neg ha] at h
      rw [List.mem_cons] at h
      rcases h with rfl | h
      · simp
      · rcases ih h with h | h
        · exact Or.inl h
        · exact Or.inr (List.mem_cons_of_mem _ h)

/-- `set` binds the key to the new value. -/
theorem mapLookup_mapSet_self (reg : List (String × Nat)) (k : String) (v : Nat) :
    mapLookup (mapSet reg k v) k = Option.some v := by
  induction reg with
  | nil => simp [mapSet, mapLookup, List.find?_cons]
  | cons p t ih =>
    obtain ⟨a, b⟩ := p
    rw [mapSet_cons]
    by_cases ha : a = k
    · rw [if_pos ha, mapLookup_cons, if_pos rfl]
    · rw [if_neg ha, mapLookup_cons, if_neg ha, ih]

/-- A successful lookup exhibits a registry entry. -/
theorem mapLookup_some_mem {reg : List (String × Nat)} {k : String} {w : Nat}
    (h : mapLookup reg k = Option.some w) : (k, w) ∈ reg := by
  induction reg with
  | nil => cases h
  | cons p t ih =>
    obtain ⟨a, b⟩ := p
    rw [mapLookup_cons] at h
    by_cases ha : a = k
    · rw [if_pos ha] at h
      injection h with hbw
      subst hbw
      subst ha
      exact List.mem_cons_self _ _
    · rw [if_neg ha] at h
      exact List.mem_cons_of_mem _ (ih h)

/-- Subscribing preserves the bridge invariant. -/
theorem bridgeInv_doSubscribe (st : BridgeState) (inv : bridgeInv st)
    (sid : Nat) (bid : String) : bridgeInv (doSubscribe st sid bid) := by
  obtain ⟨hkeys, hvals, hlive, hnodup⟩ := inv
  cases hl : mapLookup st.reg (mkKey sid bid) with
  | none =>
    simp only [doSubscribe, hl]
    refine ⟨nodup_keys_mapSet _ _ hkeys, ?_, ?_, ?_⟩
    · intro p hp
      rcases mem_mapSet_vals hp with rfl | hp'
      · exact Nat.lt_succ_self _
      · exact Nat.lt_succ_of_lt (hvals p hp')
    · intro w hw
      rcases List.mem_append.mp hw with hw | hw
      · exact Nat.lt_succ_of_lt (hlive w hw)
      · simp only [List.mem_singleton] at hw
        subst hw
        exact Nat.lt_succ_self _
    · refine hnodup.append (List.nodup_singleton _) ?_
      intro a ha hb
      simp only [List.mem_singleton] at hb
      subst hb
      exact absurd (hlive _ ha) (lt_irrefl _)
  | some w =>
    simp only [doSubscribe, hl]
    refine ⟨nodup_keys_mapSet _ _ (hkeys.sublist ((List.filter_sublist _).map Prod.fst)), ?_, ?_, ?_⟩
    · intro p hp
      rcases mem_mapSet_vals hp with rfl | hp'
      · exact Nat.lt_succ_self _
      · exact Nat.lt_succ_of_lt (hvals p (List.mem_of_mem_filter hp'))
    · intro w' hw'
      rcases List.mem_append.mp hw' with hw' | hw'
      · exact Nat.lt_succ_of_lt (hlive w' (List.mem_of_mem_erase hw'))
      · simp only [List.mem_singleton] at hw'
        subst hw'
        exact Nat.lt_succ_self _
    · refine (hnodup.erase w).append (List.nodup_singleton _) ?_
      intro a ha hb
      simp only [List.mem_singleton] at hb
      subst hb
      exact absurd (hlive _ (List.mem_of_mem_erase ha)) (lt_irrefl _)

/-- Unsubscribing one key preserves the bridge invariant. -/
theorem bridgeInv_doUnsubscribe (st : BridgeState) (inv : bridgeInv st)
    (sid : Nat) (bid : String) : bridgeInv (doUnsubscribe st sid bid) := by
  obtain ⟨hkeys, hvals, hlive, hnodup⟩ := inv
  cases hl : mapLookup st.reg (mkKey sid bid) with
  | none =>
    simp only [doUnsubscribe, hl]
    exact ⟨hkeys, hvals, hlive, hnodup⟩
  | some w =>
    simp only [doUnsubscribe, hl]
    exact ⟨hkeys.sublist ((List.filter_sublist _).map Prod.fst),
      fun p hp => hvals p (List.mem_of_mem_filter hp),
      fun w' hw' => hlive w' (List.mem_of_mem_erase hw'),
      hnodup.erase w⟩

/-- Unsubscribing a whole renderer preserves the bridge invariant. -/
theorem bridgeInv_doUnsubscribeAll (st : BridgeState) (inv : bridgeInv st)
    (sid : Nat) : bridgeInv (doUnsubscribeAll st sid) := by
  obtain ⟨hkeys, hvals, hlive, hnodup⟩ := inv
  exact ⟨hkeys.sublist ((List.filter_sublist _).map Prod.fst),
    fun p hp => hvals p (List.mem_of_mem_filter hp),
    fun w' hw' => hlive w' (List.mem_of_mem_filter hw'),
    hnodup.filter _⟩

/-- A close or error event preserves the bridge invariant. -/
theorem bridgeInv_doCloseEvent (st : BridgeState) (inv : bridgeInv st)
    (w : Nat) : bridgeInv (doCloseEvent st w) := by
  obtain ⟨hkeys, hvals, hlive, hnodup⟩ := inv
  cases hf : (st.handlers.find? (fun p => p.1 = w)).map Prod.snd with
  | none =>
    simp only [doCloseEvent, hf]
    exact ⟨hkeys, hvals, hlive, hnodup⟩
  | some key =>
    simp only [doCloseEvent, hf]
    exact ⟨hkeys.sublist ((List.filter_sublist _).map Prod.fst),
      fun p hp => hvals p (List.mem_of_mem_filter hp),
      fun w' hw' => hlive w' (List.mem_of_mem_erase hw'),
      hnodup.erase w⟩

/-- Every bridge request or event preserves the invariant. -/
theorem bridgeInv_applyBridgeOp (st : BridgeState) (inv : bridgeInv st)
    (op : BridgeOp) : bridgeInv (applyBridgeOp st op) := by
  cases op with
  | sub sid bid => exact bridgeInv_doSubscribe st inv sid bid
  | unsub sid bid => exact bridgeInv_doUnsubscribe st inv sid bid
  | unsubAll sid => exact bridgeInv_doUnsubscribeAll st inv sid
  | closeEvt w => exact bridgeInv_doCloseEvent st inv w

/-- The invariant holds in every reachable bridge state. -/
theorem bridgeInv_runBridge (ops : List BridgeOp) : bridgeInv (runBridge ops) := by
  suffices h : ∀ st, bridgeInv st → bridgeInv (ops.foldl applyBridgeOp st) from
    h initBridge ⟨by simp [initBridge], by simp [initBridge],
      by simp [initBridge], by simp [initBridge]⟩
  induction ops with
  | nil => exact fun st h => h
  | cons op t ih => exact fun st h => ih _ (bridgeInv_applyBridgeOp st h op)

/-- Claim C10, confirmed: in every reachable bridge state the registry
holds at most one entry per (renderer, build) key, and re-subscribing a
key that already has a socket closes the old socket (it is no longer
live afterwards) and rebinds the key to the freshly created one. -/
theorem claim_c10_theorem (ops : List BridgeOp) (senderId : Nat) (buildId : String)
    (w : Nat) :
    ((runBridge ops).reg.map Prod.fst).Nodup ∧
    (mapLookup (runBridge ops).reg (mkKey senderId buildId) = Option.some w →
      w ∉ (doSubscribe (runBridge ops) senderId buildId).livesocks ∧
      mapLookup (doSubscribe (runBridge ops) senderId buildId).reg (mkKey senderId buildId)
        = Option.some (runBridge ops).nextId) := by
  obtain ⟨hkeys, hvals, hlive, hnodup⟩ := bridgeInv_runBridge ops
  refine ⟨hkeys, fun hl => ?_⟩
  have hwlt : w < (runBridge ops).nextId :=
    hvals _ (mapLookup_some_mem hl)
  constructor
  · simp only [doSubscribe, hl]
    intro hmem
    rcases List.mem_append.mp hmem with hw | hw
    · exact hnodup.not_mem_erase hw
    · simp only [List.mem_singleton] at hw
      exact absurd hwlt (hw ▸ lt_irrefl _)
  · simp only [doSubscribe, hl]
    exact mapLookup_mapSet_self _ _ _

/-- Claim C10, witness: after one subscription by renderer 1 to build
`a`, the key is bound; re-subscribing closes socket 0 and binds the key
to socket 1. -/
theorem claim_c10_witness :
    mapLookup (runBridge [BridgeOp.sub 1 "a"]).reg (mkKey 1 "a") = Option.some 0 ∧
    (0 ∉ (doSubscribe (runBridge [BridgeOp.sub 1 "a"]) 1 "a").livesocks ∧
      mapLookup (doSubscribe (runBridge [BridgeOp.sub 1 "a"]) 1 "a").reg (mkKey 1 "a")
        = Option.some (runBridge [BridgeOp.sub 1 "a"]).nextId) :=
  ⟨by decide, (claim_c10_theorem [BridgeOp.sub 1 "a"] 1 "a" 0).2 (by decide)⟩

end Forgex
